import Mathlib

/-!
Verification of the streaming response pipeline of the DeepSeek VS Code
extension (orchestration module `extension.ts`, webview `app.js`,
sidebar `SidebarProvider.ts`).

Strings are modelled as `List Char` (`Str`).  The external JSON parser
(`JSON.parse` composed with field projection) is modelled as an abstract
parameter wherever the code calls it, since it is a library function the
repository does not define; every theorem quantifies over it.
-/

/-- Strings of the JavaScript/TypeScript source, modelled as character lists. -/
abbrev Str := List Char

/-- Coerce a Lean string literal to the `Str` model. -/
def str (s : String) : Str := s.data

/-- JavaScript `String.prototype.trim()`: drop whitespace from both ends. -/
def jsTrim (s : Str) : Str :=
  List.reverse (List.dropWhile Char.isWhitespace
    (List.reverse (List.dropWhile Char.isWhitespace s)))

/-- Boolean test used by the line splitter: the character is not a newline.
Mirrors scanning up to `buffer.indexOf ("\n")` in `processBuffer`. -/
def neNl (c : Char) : Bool := c != '\n'

/-- The mutable per-request stream state of `handleStreamingRequest`
(`extension.ts` line 504): `const streamState = { fullResponse: "", buffer: "" }`. -/
structure StreamState where
  buffer : Str
  fullResponse : Str
deriving DecidableEq

/-- The per-line behaviour of the body of the `while` loop of `processBuffer`
(`extension.ts` lines 546-562) on one raw line (text before the newline):
trim it; if the trimmed line is empty, produce nothing; otherwise run the
JSON parser (abstract parameter `parse`, standing for
`JSON.parse (line) .response` — `none` models both a parse failure, which the
source catches and logs, and an absent `response` field); a parsed `response`
string is produced only when it is truthy (non-empty). -/
def lineOut (parse : Str → Option Str) (rawLine : Str) : Option Str :=
  let line := jsTrim rawLine
  if line = [] then none
  else
    match parse line with
    | some r => if r = [] then none else some r
    | none => none

/-- `processBuffer` (`extension.ts` lines 541-564): while the buffer contains a
newline, split off the text before the first newline as one candidate line and
continue with the text after it; each line that yields a `response` fragment is
appended to `fullResponse` and emitted (the returned list collects the
`streamChunk` messages posted to the webview, in order). -/
def processBuffer (parse : Str → Option Str) (st : StreamState) :
    StreamState × List Str :=
  if h : '\n' ∈ st.buffer then
    let raw := List.takeWhile neNl st.buffer
    let rest := (List.dropWhile neNl st.buffer).tail
    match lineOut parse raw with
    | some r =>
        let q := processBuffer parse { buffer := rest, fullResponse := st.fullResponse ++ r }
        (q.1, r :: q.2)
    | none => processBuffer parse { buffer := rest, fullResponse := st.fullResponse }
  else (st, [])
termination_by st.buffer.length
decreasing_by
  all_goals
    have hne : List.dropWhile neNl st.buffer ≠ [] := by
      intro hnil
      have hall := List.dropWhile_eq_nil_iff.mp hnil '\n' h
      simp [neNl] at hall
    have hle : (List.dropWhile neNl st.buffer).length ≤ st.buffer.length :=
      (List.dropWhile_sublist (l := st.buffer) (p := neNl)).length_le
    have hpos : 0 < (List.dropWhile neNl st.buffer).length := List.length_pos.mpr hne
    simp only [List.length_tail]
    omega

/-- The `data` event handler of `handleStreamingRequest` (`extension.ts`
lines 507-513), iterated over an ordered sequence of chunks: each chunk is
appended to the buffer and `processBuffer` is run on the shared stream state.
Returns the final state and the concatenated ordered delta emissions. -/
def feedChunks (parse : Str → Option Str) :
    List Str → StreamState → StreamState × List Str
  | [], st => (st, [])
  | c :: cs, st =>
      let p := processBuffer parse { buffer := st.buffer ++ c, fullResponse := st.fullResponse }
      let q := feedChunks parse cs p.1
      (q.1, p.2 ++ q.2)

/-- Join a list of newline-free lines into a wire text, one trailing newline
per line (the self-hosted line-JSON wire shape). -/
def joinLines : List Str → Str
  | [] => []
  | l :: ls => l ++ '\n' :: joinLines ls

/-- The text after the last newline of a text (the whole text when it has no
newline): the part of a stream that a conforming line decoder must keep
buffered and unparsed. -/
def textAfterLastNewline (t : Str) : Str :=
  List.reverse (List.takeWhile neNl (List.reverse t))

/-- A wire line that the self-hosted decoder accepts with content `r`: it
carries no embedded newline, trims to a non-empty candidate, parses, and its
`response` field is a non-empty (truthy) string. -/
def ValidLine (parse : Str → Option Str) (l r : Str) : Prop :=
  '\n' ∉ l ∧ jsTrim l ≠ [] ∧ parse (jsTrim l) = some r ∧ r ≠ []

/-- One entry of `conversationHistory` (`extension.ts` line 47):
`{ role: string; content: string }`. -/
structure Turn where
  role : Str
  content : Str
deriving DecidableEq

/-- The Turn pushed by `sendToDeepSeek` (`extension.ts` line 385). -/
def userTurn (message : Str) : Turn := { role := str "user", content := message }

/-- The Turn pushed by `finalizeStream` (`extension.ts` lines 581-584). -/
def assistantTurn (content : Str) : Turn := { role := str "assistant", content := content }

/-- `formatConversation` (`extension.ts` lines 639-647): render the history as
labelled blocks (a role equal to the string `user` is labelled `User`, every
other role `Assistant`) joined by blank lines. -/
def formatConversation (history : List Turn) : Str :=
  List.intercalate (str "\n\n")
    (history.map fun msg =>
      (if msg.role = str "user" then str "User" else str "Assistant")
        ++ str ": " ++ msg.content)

/-- The extension settings read through `vscode.workspace.getConfiguration`
(`extension.ts` lines 380-382 and 435-442); `none` models an unset key. -/
structure Config where
  accountType : Option Str
  optionalCloudApiKey : Option Str
  aiR1SelfHostedUrl : Option Str
  aiR1Model : Option Str
  aiR1ModelTemperature : Option Str
  multiRoundConversationContext : Option Bool
deriving DecidableEq

/-- JavaScript `config.get (...) || defaultValue` on strings: an unset key or
an empty (falsy) string falls back to the default. -/
def jsOrStr (v : Option Str) (d : Str) : Str :=
  match v with
  | some s => if s = [] then d else s
  | none => d

/-- The request body built by `prepareRequest` (`extension.ts` lines 444-470):
the cloud shape carries the whole Turn sequence, the self-hosted shape carries
one flattened prompt string.  The temperature is carried as the raw configured
string (the source feeds it through `parseFloat`, which no claim concerns). -/
inductive ReqData where
  | cloudData (model : Str) (messages : List Turn) (temperature : Str) (stream : Bool)
  | selfData (model : Str) (prompt : Str) (temperature : Str) (maxTokens : Nat) (stream : Bool)
deriving DecidableEq

/-- The `{ url, headers, data }` descriptor returned by `prepareRequest`. -/
structure PreparedRequest where
  url : Str
  headers : List (Str × Str)
  data : ReqData
deriving DecidableEq

/-- `prepareRequest` (`extension.ts` lines 430-471).  The source reads the
global `conversationHistory`; it is passed explicitly here.  `config.get`
yields the default contributed by the manifest when a key is unset, so an
unset `optionalCloudApiKey` reads its declared default
`Only for cloud option..`. -/
def prepareRequest (config : Config) (message : Str) (useMultiRound : Bool)
    (conversationHistory : List Turn) : PreparedRequest :=
  let accountType := jsOrStr config.accountType (str "self-hosted")
  let apiKey := (config.optionalCloudApiKey).getD (str "Only for cloud option..")
  let selfHostedUrl := jsOrStr config.aiR1SelfHostedUrl (str "http://localhost:11434")
  let model := jsOrStr config.aiR1Model (str "deepseek-r1:7b")
  let temperature := jsOrStr config.aiR1ModelTemperature (str "0.3")
  if accountType = str "cloud" then
    { url := str "https://api.deepseek.com/v1/chat/completions"
      headers := [(str "Content-Type", str "application/json"),
                  (str "Authorization", str "Bearer " ++ apiKey)]
      data := ReqData.cloudData (str "deepseek-chat") conversationHistory temperature true }
  else
    { url := selfHostedUrl ++ str "/api/generate"
      headers := [(str "Content-Type", str "application/json")]
      data := ReqData.selfData model
        (if useMultiRound then formatConversation conversationHistory else message)
        temperature 4096 true }

/-- The module-global mutable state of `extension.ts` (lines 45-47) that the
cancellation and conversation claims concern: every `AbortController`
allocated so far is recorded by its aborted flag (index = allocation order),
`current` is the index held by `currentAbortController` (`none` = `null`),
and `conversationHistory` is the Turn sequence. -/
structure ProcState where
  controllers : List Bool
  current : Option Nat
  conversationHistory : List Turn
deriving DecidableEq

/-- The cancellation prologue of `sendToDeepSeek` (`extension.ts` lines
374-378): abort any existing controller, then create and store a fresh one. -/
def sendBegin (st : ProcState) : ProcState :=
  let cs :=
    match st.current with
    | some i => st.controllers.set i true
    | none => st.controllers
  { st with controllers := cs ++ [false], current := some cs.length }

/-- `stopGeneratingResponse` (`extension.ts` lines 629-634): abort and clear
the stored controller when one exists, otherwise do nothing. -/
def stopGeneratingResponse (st : ProcState) : ProcState :=
  match st.current with
  | some i => { st with controllers := st.controllers.set i true, current := none }
  | none => st

/-- `resetConversation` (`extension.ts` lines 618-622): clear the history,
then invoke the stop behaviour. -/
def resetConversation (st : ProcState) : ProcState :=
  stopGeneratingResponse { st with conversationHistory := [] }

/-- The synchronous prefix of `sendToDeepSeek` (`extension.ts` lines 374-392):
abort-and-replace the controller, read the configuration, push the user Turn
onto the history only when the multi-round flag is enabled, then build the
request descriptor from the updated history.  `config.get` yields the default
contributed by the manifest when a key is unset, and the manifest declares
`deepseek.MultiRoundConversationContext` with default `true`, so an unset
flag reads `true`; only an explicit `false` disables multi-round. -/
def sendToDeepSeekPrep (config : Config) (message : Str) (st : ProcState) :
    ProcState × PreparedRequest :=
  let st1 := sendBegin st
  let useMultiRound := (config.multiRoundConversationContext).getD true
  let st2 :=
    if useMultiRound then
      { st1 with conversationHistory := st1.conversationHistory ++ [userTurn message] }
    else st1
  (st2, prepareRequest config message useMultiRound st2.conversationHistory)

/-- The `catch` block of `sendToDeepSeek` (`extension.ts` lines 412-420) as a
state change: it sets `currentAbortController = null` and leaves the
conversation history untouched. -/
def sendToDeepSeekCatch (st : ProcState) : ProcState :=
  { st with current := none }

/-- The cancellation invariant of the process state: the stored index is in
range, and every non-aborted controller is the stored one. -/
def CancelInv (st : ProcState) : Prop :=
  (∀ i, st.current = some i → i < st.controllers.length) ∧
  (∀ i, (hi : i < st.controllers.length) → st.controllers[i] = false → st.current = some i)

/-- Messages posted to the webview (`panel.webview.postMessage`), restricted to
the streaming vocabulary the claims concern. -/
inductive PostMsg where
  | startResponse
  | streamChunk (chunk : Str)
  | streamComplete
  | errorNotice (message : Str)
deriving DecidableEq

/-- Settlement of the promise returned by `handleStreamingRequest`. -/
inductive Outcome where
  | resolved (value : Str)
  | rejected (message : Str)
deriving DecidableEq

/-- Promise settlement is first-wins: a later `resolve` or `reject` on an
already settled promise is a no-op. -/
def settleWith (settled : Option Outcome) (o : Outcome) : Option Outcome :=
  match settled with
  | some x => some x
  | none => some o

/-- The observable state of one in-flight self-hosted streaming request
(`handleStreamingRequest`, `extension.ts` lines 483-532). -/
structure ReqState where
  signalAborted : Bool
  stream : StreamState
  conversationHistory : List Turn
  msgs : List PostMsg
  settled : Option Outcome
deriving DecidableEq

/-- External events delivered to the handlers registered by
`handleStreamingRequest`: a transport `data` chunk, the transport `end`, a
transport `error`, or the raising of the abort signal. -/
inductive StreamEvent where
  | dataChunk (c : Str)
  | streamEnd
  | streamError (message : Str)
  | abortSignal
deriving DecidableEq

/-- The event handlers of `handleStreamingRequest` (`extension.ts` lines
497-531): the `data` handler (507-513) returns at once when the signal is
aborted, else buffers the chunk and runs `processBuffer`; the `end` handler
(515-520) returns at once when aborted, else runs `finalizeStream` (574-588):
push the assistant Turn when multi-round is on, post `streamComplete`,
resolve with the full response; the `error` handler (522-524) rejects with
the message; the abort signal (raised at most once) runs both registered
abort listeners (497-501 and 526-530), each posting `streamComplete`, the
second rejecting with `Request aborted`. -/
def stepEvent (parse : Str → Option Str) (useMultiRound : Bool)
    (st : ReqState) : StreamEvent → ReqState
  | StreamEvent.dataChunk c =>
      if st.signalAborted then st
      else
        let p := processBuffer parse
          { buffer := st.stream.buffer ++ c, fullResponse := st.stream.fullResponse }
        { st with stream := p.1, msgs := st.msgs ++ p.2.map PostMsg.streamChunk }
  | StreamEvent.streamEnd =>
      if st.signalAborted then st
      else
        { st with
          conversationHistory :=
            if useMultiRound then st.conversationHistory ++ [assistantTurn st.stream.fullResponse]
            else st.conversationHistory,
          msgs := st.msgs ++ [PostMsg.streamComplete],
          settled := settleWith st.settled (Outcome.resolved st.stream.fullResponse) }
  | StreamEvent.streamError m =>
      { st with settled := settleWith st.settled (Outcome.rejected m) }
  | StreamEvent.abortSignal =>
      if st.signalAborted then st
      else
        { st with
          signalAborted := true,
          msgs := st.msgs ++ [PostMsg.streamComplete, PostMsg.streamComplete],
          settled := settleWith st.settled (Outcome.rejected (str "Request aborted")) }

/-- Deliver a sequence of events to the handlers, in order. -/
def runEvents (parse : Str → Option Str) (useMultiRound : Bool)
    (events : List StreamEvent) (st : ReqState) : ReqState :=
  events.foldl (stepEvent parse useMultiRound) st

/-- Result of evaluating `JSON.parse (line.slice (6))` followed by
`data.choices[0].delta.content` in `handleCloudStream` (`extension.ts` lines
342-343): `throwsErr` models a thrown exception (malformed JSON, or a missing
`choices[0].delta` making the member access throw), `ok none` a present
structure whose `content` is absent or empty (falsy, silently skipped),
`ok (some s)` a truthy content string. -/
inductive CloudParse where
  | throwsErr (message : Str)
  | ok (delta : Option Str)
deriving DecidableEq

/-- The observable state of one cloud streaming operation
(`handleCloudStream`, `extension.ts` lines 330-360). -/
structure CloudState where
  fullResponse : Str
  msgs : List PostMsg
  settled : Option Outcome
deriving DecidableEq

/-- JavaScript `chunk.split ("\n")`. -/
def splitNl : Str → List Str
  | [] => [[]]
  | c :: rest =>
      if c = '\n' then [] :: splitNl rest
      else
        match splitNl rest with
        | [] => [[c]]
        | l :: ls => (c :: l) :: ls

/-- The loop body of the `data` handler of `handleCloudStream` (`extension.ts`
lines 339-354): for each line carrying the `data: ` prefix, parse the payload;
a thrown exception is caught by the `try` wrapped around the whole loop, which
calls `reject` and abandons the remaining lines of the chunk; truthy content
is appended to `fullResponse` and posted as a `streamChunk`. -/
def processCloudLines (cParse : Str → CloudParse) :
    List Str → CloudState → CloudState
  | [], st => st
  | line :: rest, st =>
      if (str "data: ").isPrefixOf line then
        match cParse (line.drop 6) with
        | CloudParse.throwsErr m =>
            { st with settled := settleWith st.settled (Outcome.rejected m) }
        | CloudParse.ok none => processCloudLines cParse rest st
        | CloudParse.ok (some s) =>
            if s = [] then processCloudLines cParse rest st
            else
              processCloudLines cParse rest
                { st with fullResponse := st.fullResponse ++ s,
                          msgs := st.msgs ++ [PostMsg.streamChunk s] }
      else processCloudLines cParse rest st

/-- One `data` event of `handleCloudStream`: split the chunk on newlines and
run the line loop.  The handler stays attached after a rejection, so it runs
even when the operation is already settled. -/
def handleCloudChunk (cParse : Str → CloudParse) (chunk : Str)
    (st : CloudState) : CloudState :=
  processCloudLines cParse (splitNl chunk) st

/-- The shape of a caught JavaScript error as `handleError` inspects it:
whether `axios.isAxiosError` holds, the optional `error.response?.status`,
and `error.message`. -/
structure JsError where
  isAxiosError : Bool
  status : Option Nat
  message : Str
deriving DecidableEq

/-- `handleError` (`extension.ts` lines 595-611). -/
def handleError (error : JsError) : Str :=
  if error.isAxiosError then
    if error.status = some 401 then str "Authentication failed. Check your API key."
    else if error.status = some 404 then str "Invalid API endpoint. Check your configuration."
    else error.message
  else if error.message = str "Request aborted" then str "Generation stopped."
  else str "Failed to get response. Check error logs for details."

/-- Settlement of the promise returned by `sendToDeepSeek`: it resolves with a
message string or rejects with a raw error. -/
inductive SettleResult where
  | resolves (value : Str)
  | rejects (error : JsError)
deriving DecidableEq

/-- JavaScript semantics of `try ... return p; ... catch (e) handler` inside an
async function when `p` is returned WITHOUT `await`, as `sendToDeepSeek` does
with `handleStreamingRequest` and `handleCloudRequest` (`extension.ts` lines
395 and 405): the `try` block exits normally at the `return`, so the `catch`
observes only synchronous throws and a later rejection of `p` passes through
to the caller untouched. -/
def tryReturnNoAwait (inner : SettleResult)
    (_handler : JsError → SettleResult) : SettleResult :=
  inner

/-- Semantics the same code would have with `return await p`: a rejection of
`p` is intercepted by the `catch` handler. -/
def tryReturnAwait (inner : SettleResult)
    (handler : JsError → SettleResult) : SettleResult :=
  match inner with
  | SettleResult.rejects e => handler e
  | r => r

/-- The `catch` block of `sendToDeepSeek` (`extension.ts` lines 412-420) as a
settlement: it resolves with the user-facing message from `handleError`. -/
def sendCatchHandler (error : JsError) : SettleResult :=
  SettleResult.resolves (handleError error)

/-- How the promise returned by `sendToDeepSeek` settles as a function of how
the inner request promise settles, per the source as written (no `await` on
the returned promise). -/
def sendToDeepSeekSettles (inner : SettleResult) : SettleResult :=
  tryReturnNoAwait inner sendCatchHandler

/-- `extractThinkContent` (`app.js` lines 429-439).  The regex
`<think>([\s\S]*?)<\/think>` without the global flag matches at the leftmost
position where the whole pattern can match — the first occurrence of the open
tag that is followed by a close tag — and the lazy group ends at the first
close tag after it; `exec` takes the first match only and `replace` with a
non-global regex removes only that first match. -/
def openThinkTag : Str := str "<think>"

/-- The closing reasoning delimiter. -/
def closeThinkTag : Str := str "</think>"

/-- First index at which `pat` occurs as a contiguous substring
(JavaScript-style leftmost search), `none` when it never occurs. -/
def findSub (pat : Str) : Str → Option Nat
  | [] => none
  | c :: rest =>
      if pat.isPrefixOf (c :: rest) then some 0
      else (findSub pat rest).map (fun i => i + 1)

/-- `extractThinkContent` (`app.js` lines 429-439): on a match, the group
content becomes `thinkContent` and the whole first match is removed from
`mainText`; with no match the input is returned unchanged with empty
reasoning.  Tag lengths: the open tag has 7 characters, the close tag 8. -/
def extractThinkContent (text : Str) : Str × Str :=
  match findSub openThinkTag text with
  | none => (text, [])
  | some i =>
      match findSub closeThinkTag (text.drop (i + 7)) with
      | none => (text, [])
      | some k =>
          (text.take i ++ text.drop (i + 7 + k + 8), (text.drop (i + 7)).take k)

/-! ### Concrete instances used by the witnesses -/

/-- A concrete behaviour of the external JSON parser for witnesses. -/
def demoParse : Str → Option Str := fun l =>
  if l = str "alpha" then some (str "Hello ")
  else if l = str "beta" then some (str "world") else none

/-- A configuration with the multi-round flag enabled and every other key
unset. -/
def demoConfigMR : Config :=
  { accountType := none, optionalCloudApiKey := none, aiR1SelfHostedUrl := none,
    aiR1Model := none, aiR1ModelTemperature := none,
    multiRoundConversationContext := some true }

/-- A configuration with the multi-round flag explicitly disabled and every
other key unset. -/
def demoConfigNoMR : Config :=
  { accountType := none, optionalCloudApiKey := none, aiR1SelfHostedUrl := none,
    aiR1Model := none, aiR1ModelTemperature := none,
    multiRoundConversationContext := some false }

/-- A configuration with every key unset: the multi-round flag then reads its
manifest default `true`. -/
def demoConfigUnset : Config :=
  { accountType := none, optionalCloudApiKey := none, aiR1SelfHostedUrl := none,
    aiR1Model := none, aiR1ModelTemperature := none,
    multiRoundConversationContext := none }

/-- A concrete behaviour of the cloud payload evaluation for witnesses. -/
def demoCloudParse : Str → CloudParse := fun p =>
  if p = str "one" then CloudParse.ok (some (str "A"))
  else if p = str "two" then CloudParse.ok (some (str "B"))
  else CloudParse.throwsErr (str "SyntaxError")

/-- A cloud wire line that the decoder accepts and forwards with content `r`:
it carries the `data: ` prefix and its payload evaluates to truthy content. -/
def GoodCloudLine (cParse : Str → CloudParse) (l r : Str) : Prop :=
  (str "data: ").isPrefixOf l = true ∧
  cParse (l.drop 6) = CloudParse.ok (some r) ∧ r ≠ []

/-! ### Properties of the line splitter -/

theorem neNl_eq_false {c : Char} : neNl c = false ↔ c = '\n' := by
  simp [neNl]

theorem takeWhile_neNl_of_not_mem {l : Str} (h : '\n' ∉ l) :
    List.takeWhile neNl l = l := by
  induction l with
  | nil => rfl
  | cons c cs ih =>
      have hc : c ≠ '\n' := fun he => h (he ▸ List.mem_cons_self c cs)
      have hcs : '\n' ∉ cs := fun hm => h (List.mem_cons_of_mem c hm)
      simp [List.takeWhile_cons, neNl, hc, ih hcs]

theorem takeWhile_neNl_upto_nl (l m : Str) :
    List.takeWhile neNl (l ++ '\n' :: m) = List.takeWhile neNl l := by
  induction l with
  | nil => simp [List.takeWhile_cons, neNl]
  | cons c cs ih =>
      by_cases hc : c = '\n'
      · subst hc
        simp [List.takeWhile_cons, neNl]
      · simp [List.takeWhile_cons, neNl, hc, ih]

theorem dropWhile_neNl_upto_nl {l : Str} (m : Str) (h : '\n' ∉ l) :
    List.dropWhile neNl (l ++ '\n' :: m) = '\n' :: m := by
  induction l with
  | nil => simp [List.dropWhile_cons, neNl]
  | cons c cs ih =>
      have hc : c ≠ '\n' := fun he => h (he ▸ List.mem_cons_self c cs)
      have hcs : '\n' ∉ cs := fun hm => h (List.mem_cons_of_mem c hm)
      simp [List.dropWhile_cons, neNl, hc, ih hcs]

theorem takeWhile_neNl_append {b1 : Str} (b2 : Str) (h : '\n' ∈ b1) :
    List.takeWhile neNl (b1 ++ b2) = List.takeWhile neNl b1 := by
  induction b1 with
  | nil => cases h
  | cons c cs ih =>
      by_cases hc : c = '\n'
      · subst hc
        simp [List.takeWhile_cons, neNl]
      · have hm : '\n' ∈ cs := by
          rcases List.mem_cons.mp h with h' | h'
          · exact absurd h'.symm hc
          · exact h'
        simp [List.takeWhile_cons, neNl, hc, ih hm]

theorem dropWhile_neNl_append {b1 : Str} (b2 : Str) (h : '\n' ∈ b1) :
    List.dropWhile neNl (b1 ++ b2) = List.dropWhile neNl b1 ++ b2 := by
  induction b1 with
  | nil => cases h
  | cons c cs ih =>
      by_cases hc : c = '\n'
      · subst hc
        simp [List.dropWhile_cons, neNl]
      · have hm : '\n' ∈ cs := by
          rcases List.mem_cons.mp h with h' | h'
          · exact absurd h'.symm hc
          · exact h'
        simp [List.dropWhile_cons, neNl, hc, ih hm]

theorem dropWhile_neNl_cons_of_mem {b : Str} (h : '\n' ∈ b) :
    List.dropWhile neNl b = '\n' :: (List.dropWhile neNl b).tail := by
  induction b with
  | nil => cases h
  | cons c cs ih =>
      by_cases hc : c = '\n'
      · subst hc
        simp [List.dropWhile_cons, neNl]
      · have hm : '\n' ∈ cs := by
          rcases List.mem_cons.mp h with h' | h'
          · exact absurd h'.symm hc
          · exact h'
        simp [List.dropWhile_cons, neNl, hc]
        exact ih hm

theorem not_mem_textAfterLastNewline (t : Str) : '\n' ∉ textAfterLastNewline t := by
  intro hm
  unfold textAfterLastNewline at hm
  rw [List.mem_reverse] at hm
  have := List.mem_takeWhile_imp hm
  simp [neNl] at this

theorem textAfterLastNewline_of_not_mem {t : Str} (h : '\n' ∉ t) :
    textAfterLastNewline t = t := by
  unfold textAfterLastNewline
  rw [takeWhile_neNl_of_not_mem (by simpa using h), List.reverse_reverse]

theorem textAfterLastNewline_append (a rest : Str) :
    textAfterLastNewline (a ++ '\n' :: rest) = textAfterLastNewline rest := by
  unfold textAfterLastNewline
  have : (a ++ '\n' :: rest).reverse = rest.reverse ++ '\n' :: a.reverse := by
    simp
  rw [this, takeWhile_neNl_upto_nl]

/-! ### Unfolding lemmas for `processBuffer` -/

theorem processBuffer_of_not_mem (parse : Str → Option Str) (b f : Str)
    (h : '\n' ∉ b) : processBuffer parse ⟨b, f⟩ = (⟨b, f⟩, []) := by
  rw [processBuffer]
  simp [h]

theorem processBuffer_step_some (parse : Str → Option Str) (b f : Str)
    (h : '\n' ∈ b) {r : Str}
    (hl : lineOut parse (List.takeWhile neNl b) = some r) :
    processBuffer parse ⟨b, f⟩ =
      ((processBuffer parse ⟨(List.dropWhile neNl b).tail, f ++ r⟩).1,
       r :: (processBuffer parse ⟨(List.dropWhile neNl b).tail, f ++ r⟩).2) := by
  rw [processBuffer]
  simp [h, hl]

theorem processBuffer_step_none (parse : Str → Option Str) (b f : Str)
    (h : '\n' ∈ b)
    (hl : lineOut parse (List.takeWhile neNl b) = none) :
    processBuffer parse ⟨b, f⟩ =
      processBuffer parse ⟨(List.dropWhile neNl b).tail, f⟩ := by
  rw [processBuffer]
  simp [h, hl]

theorem tail_dropWhile_neNl_lt {b : Str} (h : '\n' ∈ b) :
    (List.dropWhile neNl b).tail.length < b.length := by
  have hd := dropWhile_neNl_cons_of_mem h
  have hlen := congrArg List.length hd
  have hle : (List.dropWhile neNl b).length ≤ b.length :=
    (List.dropWhile_sublist (l := b) (p := neNl)).length_le
  simp at hlen
  simp only [List.length_tail]
  omega

/-! ### Chunk-splitting invariance of the self-hosted line decoder -/

theorem processBuffer_append_aux (parse : Str → Option Str) :
    ∀ (n : Nat) (b1 : Str), b1.length ≤ n → ∀ (b2 f : Str),
      processBuffer parse ⟨b1 ++ b2, f⟩ =
        ((processBuffer parse ⟨(processBuffer parse ⟨b1, f⟩).1.buffer ++ b2,
            (processBuffer parse ⟨b1, f⟩).1.fullResponse⟩).1,
         (processBuffer parse ⟨b1, f⟩).2 ++
           (processBuffer parse ⟨(processBuffer parse ⟨b1, f⟩).1.buffer ++ b2,
              (processBuffer parse ⟨b1, f⟩).1.fullResponse⟩).2) := by
  intro n
  induction n with
  | zero =>
      intro b1 hb1 b2 f
      have hnil : b1 = [] := List.length_eq_zero.mp (Nat.le_zero.mp hb1)
      subst hnil
      rw [processBuffer_of_not_mem parse [] f (by simp)]
      simp
  | succ n ih =>
      intro b1 hb1 b2 f
      by_cases hmem : '\n' ∈ b1
      · have hmem2 : '\n' ∈ b1 ++ b2 := List.mem_append.mpr (Or.inl hmem)
        have e1 : List.takeWhile neNl (b1 ++ b2) = List.takeWhile neNl b1 :=
          takeWhile_neNl_append b2 hmem
        have e2 : (List.dropWhile neNl (b1 ++ b2)).tail =
            (List.dropWhile neNl b1).tail ++ b2 := by
          rw [dropWhile_neNl_append b2 hmem, dropWhile_neNl_cons_of_mem hmem]
          simp
        have hlen : (List.dropWhile neNl b1).tail.length ≤ n := by
          have := tail_dropWhile_neNl_lt hmem
          omega
        cases hl : lineOut parse (List.takeWhile neNl b1) with
        | some r =>
            rw [processBuffer_step_some parse (b1 ++ b2) f hmem2 (by rw [e1]; exact hl),
                processBuffer_step_some parse b1 f hmem hl]
            rw [e2]
            rw [ih _ hlen b2 (f ++ r)]
            simp
        | none =>
            rw [processBuffer_step_none parse (b1 ++ b2) f hmem2 (by rw [e1]; exact hl),
                processBuffer_step_none parse b1 f hmem hl]
            rw [e2]
            exact ih _ hlen b2 f
      · rw [processBuffer_of_not_mem parse b1 f hmem]
        simp

/-- Feeding `b1` and then `b2` through the buffer-and-parse loop is the same
as feeding `b1 ++ b2` at once. -/
theorem processBuffer_append (parse : Str → Option Str) (b1 b2 f : Str) :
    processBuffer parse ⟨b1 ++ b2, f⟩ =
      ((processBuffer parse ⟨(processBuffer parse ⟨b1, f⟩).1.buffer ++ b2,
          (processBuffer parse ⟨b1, f⟩).1.fullResponse⟩).1,
       (processBuffer parse ⟨b1, f⟩).2 ++
         (processBuffer parse ⟨(processBuffer parse ⟨b1, f⟩).1.buffer ++ b2,
            (processBuffer parse ⟨b1, f⟩).1.fullResponse⟩).2) :=
  processBuffer_append_aux parse b1.length b1 le_rfl b2 f

theorem processBuffer_buffer_eq_aux (parse : Str → Option Str) :
    ∀ (n : Nat) (b f : Str), b.length ≤ n →
      (processBuffer parse ⟨b, f⟩).1.buffer = textAfterLastNewline b := by
  intro n
  induction n with
  | zero =>
      intro b f hb
      have hnil : b = [] := List.length_eq_zero.mp (Nat.le_zero.mp hb)
      subst hnil
      rw [processBuffer_of_not_mem parse [] f (by simp),
          textAfterLastNewline_of_not_mem (by simp)]
  | succ n ih =>
      intro b f hb
      by_cases hmem : '\n' ∈ b
      · have hd := dropWhile_neNl_cons_of_mem hmem
        have hsplit : b =
            List.takeWhile neNl b ++ '\n' :: (List.dropWhile neNl b).tail := by
          have h2 := congrArg (fun t => List.takeWhile neNl b ++ t) hd
          simpa [List.takeWhile_append_dropWhile] using h2
        have hlen : (List.dropWhile neNl b).tail.length ≤ n := by
          have := tail_dropWhile_neNl_lt hmem
          omega
        have htail : textAfterLastNewline b =
            textAfterLastNewline (List.dropWhile neNl b).tail := by
          conv_lhs => rw [hsplit]
          exact textAfterLastNewline_append _ _
        cases hl : lineOut parse (List.takeWhile neNl b) with
        | some r =>
            rw [processBuffer_step_some parse b f hmem hl, htail]
            exact ih _ (f ++ r) hlen
        | none =>
            rw [processBuffer_step_none parse b f hmem hl, htail]
            exact ih _ f hlen
      · rw [processBuffer_of_not_mem parse b f hmem,
            textAfterLastNewline_of_not_mem hmem]

/-- After the loop returns, the buffer holds exactly the text after the last
newline of the input buffer. -/
theorem processBuffer_buffer_eq (parse : Str → Option Str) (b f : Str) :
    (processBuffer parse ⟨b, f⟩).1.buffer = textAfterLastNewline b :=
  processBuffer_buffer_eq_aux parse b.length b f le_rfl

theorem processBuffer_buffer_not_mem (parse : Str → Option Str) (b f : Str) :
    '\n' ∉ (processBuffer parse ⟨b, f⟩).1.buffer := by
  rw [processBuffer_buffer_eq]
  exact not_mem_textAfterLastNewline _

/-- Iterating the `data` handler over a chunk list from a newline-free buffer
is the single-shot run of `processBuffer` on the concatenated text. -/
theorem feedChunks_eq_processBuffer (parse : Str → Option Str) :
    ∀ (cs : List Str) (b f : Str), '\n' ∉ b →
      feedChunks parse cs ⟨b, f⟩ =
        processBuffer parse ⟨b ++ cs.flatten, f⟩ := by
  intro cs
  induction cs with
  | nil =>
      intro b f h
      simp only [feedChunks, List.flatten_nil, List.append_nil]
      rw [processBuffer_of_not_mem parse b f h]
  | cons c cs ih =>
      intro b f h
      simp only [feedChunks]
      have hpost := processBuffer_buffer_not_mem parse (b ++ c) f
      have heta : processBuffer parse { buffer := b ++ c, fullResponse := f } =
          processBuffer parse ⟨b ++ c, f⟩ := rfl
      rw [heta, ih _ _ hpost]
      have happ := processBuffer_append parse (b ++ c) cs.flatten f
      rw [List.flatten_cons, ← List.append_assoc]
      have heta2 : (processBuffer parse ⟨b ++ c, f⟩).1 =
          (⟨(processBuffer parse ⟨b ++ c, f⟩).1.buffer,
            (processBuffer parse ⟨b ++ c, f⟩).1.fullResponse⟩ : StreamState) := rfl
      rw [happ]

/-- C1.  For the self-hosted line-JSON decoder, and any behaviour of the
external JSON parser: feeding the chunks of any split of a text one at a time
through the buffer-and-parse loop over the shared stream state yields exactly
the run obtained by feeding the whole text as one unsplit chunk — the same
ordered sequence of emitted delta fragments and the same final accumulated
`fullResponse` — and the final buffer holds exactly the text after the last
newline of the input, unparsed and newline-free. -/
theorem claimC1_chunk_split_invariance (parse : Str → Option Str) (chunks : List Str) :
    feedChunks parse chunks ⟨[], []⟩ = feedChunks parse [chunks.flatten] ⟨[], []⟩ ∧
    feedChunks parse chunks ⟨[], []⟩ =
      processBuffer parse ⟨chunks.flatten, []⟩ ∧
    (processBuffer parse ⟨chunks.flatten, []⟩).1.buffer =
      textAfterLastNewline chunks.flatten ∧
    '\n' ∉ (processBuffer parse ⟨chunks.flatten, []⟩).1.buffer := by
  have h1 : feedChunks parse chunks ⟨[], []⟩ =
      processBuffer parse ⟨chunks.flatten, []⟩ := by
    have := feedChunks_eq_processBuffer parse chunks [] [] (by simp)
    simpa using this
  have h2 : feedChunks parse [chunks.flatten] ⟨[], []⟩ =
      processBuffer parse ⟨chunks.flatten, []⟩ := by
    have := feedChunks_eq_processBuffer parse [chunks.flatten] [] [] (by simp)
    simpa using this
  exact ⟨h1.trans h2.symm, h1, processBuffer_buffer_eq parse _ _,
    processBuffer_buffer_not_mem parse _ _⟩

/-! ### Malformed-line resilience of the self-hosted line decoder -/

theorem dropWhile_upto_nl_tail {l : Str} (m : Str) (h : '\n' ∉ l) :
    (List.dropWhile neNl (l ++ '\n' :: m)).tail = m := by
  rw [dropWhile_neNl_upto_nl m h]
  rfl

theorem processBuffer_joinLines (parse : Str → Option Str) :
    ∀ (ls : List Str) (f : Str), (∀ l ∈ ls, '\n' ∉ l) →
      processBuffer parse ⟨joinLines ls, f⟩ =
        (⟨[], f ++ (ls.filterMap (lineOut parse)).flatten⟩,
         ls.filterMap (lineOut parse)) := by
  intro ls
  induction ls with
  | nil =>
      intro f _
      simp only [joinLines, List.filterMap_nil, List.flatten_nil, List.append_nil]
      exact processBuffer_of_not_mem parse [] f (by simp)
  | cons l ls ih =>
      intro f hmem
      have hl : '\n' ∉ l := hmem l (List.mem_cons_self l ls)
      have hls : ∀ x ∈ ls, '\n' ∉ x := fun x hx => hmem x (List.mem_cons_of_mem l hx)
      have hin : '\n' ∈ joinLines (l :: ls) := by
        simp only [joinLines]
        exact List.mem_append.mpr (Or.inr (List.mem_cons_self _ _))
      have htake : List.takeWhile neNl (joinLines (l :: ls)) = l := by
        simp only [joinLines]
        rw [takeWhile_neNl_upto_nl, takeWhile_neNl_of_not_mem hl]
      have hdrop : (List.dropWhile neNl (joinLines (l :: ls))).tail = joinLines ls := by
        simp only [joinLines]
        exact dropWhile_upto_nl_tail _ hl
      cases hline : lineOut parse l with
      | some r =>
          have hstep := processBuffer_step_some parse (joinLines (l :: ls)) f hin
            (by rw [htake]; exact hline)
          rw [hstep, hdrop, ih (f ++ r) hls]
          simp [List.filterMap_cons, hline, List.append_assoc]
      | none =>
          have hstep := processBuffer_step_none parse (joinLines (l :: ls)) f hin
            (by rw [htake]; exact hline)
          rw [hstep, hdrop, ih f hls]
          simp [List.filterMap_cons, hline]

theorem validLine_lineOut {parse : Str → Option Str} {l r : Str}
    (h : ValidLine parse l r) : lineOut parse l = some r := by
  obtain ⟨-, h2, h3, h4⟩ := h
  simp [lineOut, h2, h3, h4]

theorem validLines_filterMap (parse : Str → Option Str) :
    ∀ {L R : List Str}, List.Forall₂ (ValidLine parse) L R →
      L.filterMap (lineOut parse) = R ∧ ∀ l ∈ L, '\n' ∉ l := by
  intro L R h
  induction h with
  | nil => exact ⟨rfl, by simp⟩
  | cons hv _ ihp =>
      refine ⟨?_, ?_⟩
      · rw [List.filterMap_cons, validLine_lineOut hv, ihp.1]
      · intro x hx
        rcases List.mem_cons.mp hx with hx | hx
        · exact hx ▸ hv.1
        · exact ihp.2 x hx

/-- C5.  For the self-hosted line-JSON decoder, and any behaviour of the
external JSON parser: one malformed JSON line (non-blank but failing to
parse) inserted among valid lines never aborts the stream — the run
terminates normally having skipped exactly that line, and the delta sequence
and the accumulated `fullResponse` consist of the `response` content of every
valid line before and after it, in order. -/
theorem claimC5_malformed_line_skipped (parse : Str → Option Str)
    (L1 L2 R1 R2 : List Str) (bad : Str)
    (h1 : List.Forall₂ (ValidLine parse) L1 R1)
    (h2 : List.Forall₂ (ValidLine parse) L2 R2)
    (hb1 : '\n' ∉ bad) (hb2 : jsTrim bad ≠ [])
    (hb3 : parse (jsTrim bad) = none) :
    processBuffer parse ⟨joinLines (L1 ++ bad :: L2), []⟩ =
      (⟨[], (R1 ++ R2).flatten⟩, R1 ++ R2) := by
  obtain ⟨hf1, hm1⟩ := validLines_filterMap parse h1
  obtain ⟨hf2, hm2⟩ := validLines_filterMap parse h2
  have hbad : lineOut parse bad = none := by
    simp [lineOut, hb2, hb3]
  have hmem : ∀ l ∈ L1 ++ bad :: L2, '\n' ∉ l := by
    intro l hl
    rcases List.mem_append.mp hl with hl | hl
    · exact hm1 l hl
    · rcases List.mem_cons.mp hl with hl | hl
      · exact hl ▸ hb1
      · exact hm2 l hl
  have := processBuffer_joinLines parse (L1 ++ bad :: L2) [] hmem
  rw [this]
  rw [List.filterMap_append, List.filterMap_cons, hbad, hf1, hf2]
  simp

/-- Witness for C5 at a concrete stream: the malformed middle line of
`alpha\nnoise\nbeta\n` is skipped and both valid fragments survive in order. -/
theorem claimC5_malformed_line_skipped_witness :
    (jsTrim (str "noise") ≠ [] ∧ demoParse (jsTrim (str "noise")) = none) ∧
    processBuffer demoParse
        ⟨joinLines [str "alpha", str "noise", str "beta"], []⟩ =
      (⟨[], ([str "Hello ", str "world"]).flatten⟩, [str "Hello ", str "world"]) :=
  ⟨⟨by decide, by decide⟩,
    claimC5_malformed_line_skipped demoParse [str "alpha"] [str "beta"]
      [str "Hello "] [str "world"] (str "noise")
      (List.Forall₂.cons ⟨by decide, by decide, by decide, by decide⟩ List.Forall₂.nil)
      (List.Forall₂.cons ⟨by decide, by decide, by decide, by decide⟩ List.Forall₂.nil)
      (by decide) (by decide) (by decide)⟩

/-! ### The at-most-one-live-controller invariant -/

theorem cancelInv_sendBegin (st : ProcState) (h : CancelInv st) :
    CancelInv (sendBegin st) := by
  obtain ⟨hbound, hlive⟩ := h
  cases hcur : st.current with
  | none =>
      simp only [sendBegin, hcur]
      constructor
      · intro i hi
        simp only [Option.some.injEq] at hi
        simp [← hi]
      · intro i hi hfalse
        by_cases hlt : i < st.controllers.length
        · rw [List.getElem_append_left hlt] at hfalse
          exact absurd (hlive i hlt hfalse) (by rw [hcur]; exact fun hc => by cases hc)
        · simp only [List.length_append, List.length_singleton] at hi
          have : i = st.controllers.length := by omega
          simp [this]
  | some i0 =>
      have hi0 : i0 < st.controllers.length := hbound i0 hcur
      simp only [sendBegin, hcur]
      constructor
      · intro i hi
        simp only [Option.some.injEq] at hi
        simp [← hi]
      · intro i hi hfalse
        by_cases hlt : i < (st.controllers.set i0 true).length
        · rw [List.getElem_append_left hlt] at hfalse
          by_cases hii : i0 = i
          · subst hii
            rw [List.getElem_set_self (by simpa using hi0)] at hfalse
            cases hfalse
          · rw [List.getElem_set_ne hii _] at hfalse
            have := hlive i (by simpa using hlt) hfalse
            rw [hcur] at this
            have : i0 = i := by
              injection this
            exact absurd this hii
        · simp only [List.length_append, List.length_singleton] at hi
          have : i = (st.controllers.set i0 true).length := by omega
          simp [this]

theorem cancelInv_stop (st : ProcState) (h : CancelInv st) :
    CancelInv (stopGeneratingResponse st) := by
  obtain ⟨hbound, hlive⟩ := h
  cases hcur : st.current with
  | none =>
      simp only [stopGeneratingResponse, hcur]
      exact ⟨hbound, fun i hi hf => by
        have := hlive i hi hf
        rw [hcur] at this
        cases this⟩
  | some i0 =>
      have hi0 : i0 < st.controllers.length := hbound i0 hcur
      simp only [stopGeneratingResponse, hcur]
      constructor
      · intro i hi
        cases hi
      · intro i hi hfalse
        by_cases hii : i0 = i
        · subst hii
          rw [List.getElem_set_self (by simpa using hi0)] at hfalse
          cases hfalse
        · rw [List.getElem_set_ne hii _] at hfalse
          have := hlive i (by simpa using hi) hfalse
          rw [hcur] at this
          have : i0 = i := by injection this
          exact absurd this hii

/-- C2.  The cancellation invariant — every stored, in-range, non-aborted
controller is the one held by `currentAbortController`, hence there is at most
one non-aborted controller — is preserved by the
abort-and-replace prologue of `sendToDeepSeek`, by `stopGeneratingResponse` and by
`resetConversation`; the prologue aborts the previously stored controller
before storing a fresh non-aborted one; `stopGeneratingResponse` aborts and
clears the stored controller and is a no-op when none is stored; and
`resetConversation` invokes exactly the stop behaviour on the cleared state. -/
theorem claimC2_at_most_one_abort_controller (st : ProcState) (h : CancelInv st) :
    (∀ i j, (hi : i < st.controllers.length) → (hj : j < st.controllers.length) →
        st.controllers[i] = false → st.controllers[j] = false → i = j) ∧
    CancelInv (sendBegin st) ∧
    CancelInv (stopGeneratingResponse st) ∧
    CancelInv (resetConversation st) ∧
    (∀ i, st.current = some i → (sendBegin st).controllers.getD i false = true) ∧
    (∃ j, (sendBegin st).current = some j ∧
      (sendBegin st).controllers.getD j true = false) ∧
    (stopGeneratingResponse st).current = none ∧
    (∀ i, st.current = some i →
      (stopGeneratingResponse st).controllers.getD i false = true) ∧
    (st.current = none → stopGeneratingResponse st = st) ∧
    resetConversation st =
      stopGeneratingResponse { st with conversationHistory := [] } := by
  obtain ⟨hbound, hlive⟩ := h
  refine ⟨?_, cancelInv_sendBegin st ⟨hbound, hlive⟩, cancelInv_stop st ⟨hbound, hlive⟩,
    cancelInv_stop _ ⟨hbound, hlive⟩, ?_, ?_, ?_, ?_, ?_, rfl⟩
  · intro i j hi hj hfi hfj
    have h1 := hlive i hi hfi
    have h2 := hlive j hj hfj
    rw [h1] at h2
    injection h2
  · intro i hcur
    have hi : i < st.controllers.length := hbound i hcur
    simp only [sendBegin, hcur]
    have hlen : i < (st.controllers.set i true).length := by simpa using hi
    rw [List.getD_eq_getElem?_getD, List.getElem?_append_left (by simpa using hlen),
        List.getElem?_eq_getElem hlen, List.getElem_set_self hlen]
    rfl
  · cases hcur : st.current with
    | none =>
        refine ⟨st.controllers.length, ?_, ?_⟩
        · simp [sendBegin, hcur]
        · simp only [sendBegin, hcur]
          rw [List.getD_eq_getElem?_getD, List.getElem?_append_right (le_refl _)]
          simp
    | some i0 =>
        refine ⟨(st.controllers.set i0 true).length, ?_, ?_⟩
        · simp [sendBegin, hcur]
        · simp only [sendBegin, hcur]
          rw [List.getD_eq_getElem?_getD, List.getElem?_append_right (le_refl _)]
          simp
  · cases hcur : st.current with
    | none => simp [stopGeneratingResponse, hcur]
    | some i0 => simp [stopGeneratingResponse, hcur]
  · intro i hcur
    have hi : i < st.controllers.length := hbound i hcur
    have hlen : i < (st.controllers.set i true).length := by simpa using hi
    simp only [stopGeneratingResponse, hcur]
    rw [List.getD_eq_getElem?_getD, List.getElem?_eq_getElem hlen,
        List.getElem_set_self hlen]
    rfl
  · intro hcur
    simp [stopGeneratingResponse, hcur]

/-- Witness for C2 at a concrete state holding one live controller. -/
theorem claimC2_at_most_one_abort_controller_witness :
    CancelInv ⟨[false], some 0, []⟩ ∧
    CancelInv (sendBegin ⟨[false], some 0, []⟩) ∧
    (stopGeneratingResponse (⟨[false], some 0, []⟩ : ProcState)).current = none := by
  have hinv : CancelInv ⟨[false], some 0, []⟩ := by
    constructor
    · intro i hi
      injection hi with hi
      subst hi
      simp
    · intro i hi _
      have : i = 0 := by
        simp at hi
        omega
      simp [this]
  have happ := claimC2_at_most_one_abort_controller ⟨[false], some 0, []⟩ hinv
  exact ⟨hinv, happ.2.1, happ.2.2.2.2.2.2.1⟩

/-! ### Reasoning-section extraction -/

theorem findSub_some_prefix {pat : Str} :
    ∀ {l : Str} {i : Nat}, findSub pat l = some i → pat <+: l.drop i := by
  intro l
  induction l with
  | nil => intro i h; cases h
  | cons c rest ih =>
      intro i h
      rw [findSub] at h
      by_cases hp : pat.isPrefixOf (c :: rest) = true
      · rw [if_pos hp] at h
        injection h with h
        subst h
        exact List.isPrefixOf_iff_prefix.mp hp
      · rw [if_neg hp] at h
        rcases Option.map_eq_some'.mp h with ⟨j, hj, rfl⟩
        rw [List.drop_succ_cons]
        exact ih hj

theorem findSub_eq_some {pat : Str} (hp : pat ≠ []) :
    ∀ {l : Str} {i : Nat}, pat <+: l.drop i →
      (∀ j, j < i → ¬ pat <+: l.drop j) → findSub pat l = some i := by
  intro l
  induction l with
  | nil =>
      intro i h _
      rw [List.drop_nil] at h
      exact absurd (List.prefix_nil.mp h) hp
  | cons c rest ih =>
      intro i h hmin
      cases i with
      | zero =>
          rw [List.drop_zero] at h
          rw [findSub, if_pos (List.isPrefixOf_iff_prefix.mpr h)]
      | succ i' =>
          have h0 : ¬ pat <+: (c :: rest) := by
            have := hmin 0 (Nat.succ_pos i')
            rwa [List.drop_zero] at this
          have hpf : ¬ pat.isPrefixOf (c :: rest) = true := fun hb =>
            h0 (List.isPrefixOf_iff_prefix.mp hb)
          rw [findSub, if_neg hpf]
          rw [List.drop_succ_cons] at h
          have hmin' : ∀ j, j < i' → ¬ pat <+: rest.drop j := by
            intro j hj hc
            exact hmin (j + 1) (by omega) (by rwa [List.drop_succ_cons])
          rw [ih h hmin']
          rfl

theorem lt_length_of_prefix_drop {pat : Str} (hp : pat ≠ []) {l : Str} {i : Nat}
    (h : pat <+: l.drop i) : i < l.length := by
  by_contra hle
  push_neg at hle
  rw [List.drop_eq_nil_iff.mpr hle] at h
  exact hp (List.prefix_nil.mp h)

/-- C3.  Finalization via `extractThinkContent`: the worked example
`A<think>B</think>C` yields main text `AC` and reasoning `B`; and any text
containing no complete open-tag/close-tag pair (no open tag occurrence with a
close tag starting at or after the end of that open tag) is returned
unchanged with empty reasoning content. -/
theorem claimC3_think_extraction :
    extractThinkContent (str "A<think>B</think>C") = (str "AC", str "B") ∧
    ∀ text : Str,
      (∀ i, i < text.length → openThinkTag <+: text.drop i →
        ∀ j, j < text.length → i + 7 ≤ j → ¬ closeThinkTag <+: text.drop j) →
      extractThinkContent text = (text, []) := by
  constructor
  · decide
  · intro text hno
    cases hf : findSub openThinkTag text with
    | none => simp [extractThinkContent, hf]
    | some i =>
        cases hg : findSub closeThinkTag (text.drop (i + 7)) with
        | none => simp [extractThinkContent, hf, hg]
        | some k =>
            exfalso
            have hpi : openThinkTag <+: text.drop i := findSub_some_prefix hf
            have hpk : closeThinkTag <+: (text.drop (i + 7)).drop k :=
              findSub_some_prefix hg
            rw [List.drop_drop] at hpk
            have hiL : i < text.length := lt_length_of_prefix_drop (by decide) hpi
            have hjL : i + 7 + k < text.length :=
              lt_length_of_prefix_drop (by decide) hpk
            exact hno i hiL hpi (i + 7 + k) hjL (by omega) hpk

/-- Witness for C3 on a text holding an unmatched open tag: it is returned
unchanged with empty reasoning. -/
theorem claimC3_think_extraction_witness :
    extractThinkContent (str "A<think>B") = (str "A<think>B", []) :=
  claimC3_think_extraction.2 (str "A<think>B") (by decide)

/-- C10.  When the text decomposes as `a <think> b </think> c` with the
earliest open tag at the end of `a` and the earliest subsequent close tag at
the end of `b`, `extractThinkContent` extracts only that first pair: the
reasoning is `b` and the main text is `a ++ c` — so any later
`<think>...</think>` pair, which lies inside `c`, remains verbatim (tags
included) in the user-facing main text. -/
theorem claimC10_only_first_pair_extracted (a b c : Str)
    (h1 : ∀ i, i < a.length →
      ¬ openThinkTag <+: (a ++ openThinkTag ++ b ++ closeThinkTag ++ c).drop i)
    (h2 : ∀ k, k < b.length →
      ¬ closeThinkTag <+: (b ++ (closeThinkTag ++ c)).drop k) :
    extractThinkContent (a ++ openThinkTag ++ b ++ closeThinkTag ++ c) =
      (a ++ c, b) := by
  have h7 : openThinkTag.length = 7 := by decide
  have h8 : closeThinkTag.length = 8 := by decide
  have htext : a ++ openThinkTag ++ b ++ closeThinkTag ++ c =
      a ++ (openThinkTag ++ (b ++ (closeThinkTag ++ c))) := by
    simp [List.append_assoc]
  have htext2 : a ++ openThinkTag ++ b ++ closeThinkTag ++ c =
      (a ++ openThinkTag) ++ (b ++ (closeThinkTag ++ c)) := by
    simp [List.append_assoc]
  have hdropA : (a ++ openThinkTag ++ b ++ closeThinkTag ++ c).drop a.length =
      openThinkTag ++ (b ++ (closeThinkTag ++ c)) := by
    rw [htext, List.drop_left]
  have hlen7 : a.length + 7 = (a ++ openThinkTag).length := by
    simp [List.length_append, h7]
  have hdrop7 : (a ++ openThinkTag ++ b ++ closeThinkTag ++ c).drop (a.length + 7) =
      b ++ (closeThinkTag ++ c) := by
    rw [hlen7, htext2, List.drop_left]
  have hfind1 : findSub openThinkTag (a ++ openThinkTag ++ b ++ closeThinkTag ++ c) =
      some a.length := by
    apply findSub_eq_some (by decide)
    · rw [hdropA]
      exact List.prefix_append _ _
    · exact fun j hj => h1 j hj
  have hfind2 : findSub closeThinkTag
      ((a ++ openThinkTag ++ b ++ closeThinkTag ++ c).drop (a.length + 7)) =
      some b.length := by
    rw [hdrop7]
    apply findSub_eq_some (by decide)
    · rw [List.drop_left]
      exact List.prefix_append _ _
    · exact fun k hk => h2 k hk
  have hlenP : (((a ++ openThinkTag) ++ b) ++ closeThinkTag).length =
      a.length + 7 + b.length + 8 := by
    simp [List.length_append, h7, h8]
    omega
  have hdropEnd : (a ++ openThinkTag ++ b ++ closeThinkTag ++ c).drop
      (a.length + 7 + b.length + 8) = c := by
    rw [← hlenP]
    exact List.drop_left _ _
  have htakeA : (a ++ openThinkTag ++ b ++ closeThinkTag ++ c).take a.length = a := by
    rw [htext, List.take_left]
  have htakeB : ((a ++ openThinkTag ++ b ++ closeThinkTag ++ c).drop
      (a.length + 7)).take b.length = b := by
    rw [hdrop7, List.take_left]
  simp only [extractThinkContent, hfind1, hfind2, htakeA, htakeB, hdropEnd]

/-- Witness for C10 on a text carrying two complete pairs: only the first is
extracted and the second remains verbatim in the main text. -/
theorem claimC10_only_first_pair_extracted_witness :
    extractThinkContent
        (str "A" ++ openThinkTag ++ str "B" ++ closeThinkTag ++ str "C<think>D</think>E") =
      (str "A" ++ str "C<think>D</think>E", str "B") :=
  claimC10_only_first_pair_extracted (str "A") (str "B") (str "C<think>D</think>E")
    (by decide) (by decide)

/-! ### Request construction -/

/-- C4.  For every self-hosted request (resolved account type other than
`cloud`): with the multi-round flag enabled the outbound prompt is exactly the
Turn sequence rendered by `formatConversation` as alternating labelled blocks
joined by blank lines, and with the flag disabled it is exactly the latest
message; on `[{user, hi}, {assistant, hello}]` the rendering is
`User: hi\n\nAssistant: hello`.  The rendering is a pure function of the Turn
sequence by construction (it returns a new string and its argument is
untouched). -/
theorem claimC4_self_hosted_prompt (config : Config) (message : Str)
    (history : List Turn)
    (h : jsOrStr config.accountType (str "self-hosted") ≠ str "cloud") :
    (prepareRequest config message true history).data =
      ReqData.selfData (jsOrStr config.aiR1Model (str "deepseek-r1:7b"))
        (formatConversation history)
        (jsOrStr config.aiR1ModelTemperature (str "0.3")) 4096 true ∧
    (prepareRequest config message false history).data =
      ReqData.selfData (jsOrStr config.aiR1Model (str "deepseek-r1:7b"))
        message
        (jsOrStr config.aiR1ModelTemperature (str "0.3")) 4096 true ∧
    formatConversation [⟨str "user", str "hi"⟩, ⟨str "assistant", str "hello"⟩] =
      str "User: hi\n\nAssistant: hello" := by
  refine ⟨?_, ?_, by decide⟩
  · simp only [prepareRequest, if_neg h]
    simp
  · simp only [prepareRequest, if_neg h]
    simp

/-- Witness for C4 at a configuration with every key unset. -/
theorem claimC4_self_hosted_prompt_witness :
    jsOrStr demoConfigMR.accountType (str "self-hosted") ≠ str "cloud" ∧
    (prepareRequest demoConfigMR (str "hi") true
        [⟨str "user", str "hi"⟩]).data =
      ReqData.selfData (jsOrStr demoConfigMR.aiR1Model (str "deepseek-r1:7b"))
        (formatConversation [⟨str "user", str "hi"⟩])
        (jsOrStr demoConfigMR.aiR1ModelTemperature (str "0.3")) 4096 true :=
  ⟨by decide,
    (claimC4_self_hosted_prompt demoConfigMR (str "hi")
      [⟨str "user", str "hi"⟩] (by decide)).1⟩

/-! ### Ordering of the user-turn append in `sendToDeepSeek` -/

/-- Counterexample to C8 as stated: with the multi-round flag explicitly
disabled, `sendToDeepSeek` pushes no user Turn at all — the history after the
prologue of a call on the empty history is still empty, and in particular
does not contain the Turn of that user message. -/
theorem claimC8_counterexample :
    (sendToDeepSeekPrep demoConfigNoMR (str "hi") ⟨[], none, []⟩).1.conversationHistory
      = [] ∧
    userTurn (str "hi") ∉
      (sendToDeepSeekPrep demoConfigNoMR (str "hi")
        ⟨[], none, []⟩).1.conversationHistory := by
  constructor
  · rfl
  · intro hmem
    rw [show (sendToDeepSeekPrep demoConfigNoMR (str "hi")
        ⟨[], none, []⟩).1.conversationHistory = [] from rfl] at hmem
    cases hmem

/-- C8 as amended: when the multi-round flag is enabled — set to `true`
explicitly or left unset, since the manifest declares its default `true` —
the user Turn is appended to the conversation history before the request
descriptor is built, so it is visible in the self-hosted multi-round prompt
of that request, and the error path of the call (`catch` block) leaves the
history untouched, so the Turn remains stored even if the send later fails;
only an explicit `false` flag skips the append. -/
theorem claimC8_user_turn_appended (config : Config) (message : Str)
    (st : ProcState)
    (hmr : (config.multiRoundConversationContext).getD true = true) :
    (sendToDeepSeekPrep config message st).1.conversationHistory =
      st.conversationHistory ++ [userTurn message] ∧
    (jsOrStr config.accountType (str "self-hosted") ≠ str "cloud" →
      (sendToDeepSeekPrep config message st).2.data =
        ReqData.selfData (jsOrStr config.aiR1Model (str "deepseek-r1:7b"))
          (formatConversation (st.conversationHistory ++ [userTurn message]))
          (jsOrStr config.aiR1ModelTemperature (str "0.3")) 4096 true) ∧
    (sendToDeepSeekCatch
        (sendToDeepSeekPrep config message st).1).conversationHistory =
      st.conversationHistory ++ [userTurn message] := by
  refine ⟨?_, ?_, ?_⟩
  · simp only [sendToDeepSeekPrep, hmr, if_true]
    rfl
  · intro hcloud
    simp only [sendToDeepSeekPrep, hmr, if_true]
    simp only [prepareRequest, if_neg hcloud]
    rfl
  · simp only [sendToDeepSeekPrep, sendToDeepSeekCatch, hmr, if_true]
    rfl

/-- Witness for the amended C8 at a concrete call on the empty history with
the multi-round key left unset, which reads its manifest default `true`. -/
theorem claimC8_user_turn_appended_witness :
    (demoConfigUnset.multiRoundConversationContext).getD true = true ∧
    (sendToDeepSeekPrep demoConfigUnset (str "hi") ⟨[], none, []⟩).1.conversationHistory =
      [userTurn (str "hi")] :=
  ⟨rfl, (claimC8_user_turn_appended demoConfigUnset (str "hi") ⟨[], none, []⟩ rfl).1⟩

/-! ### No delta or completion after abort -/

theorem runEvents_passive_after_abort (parse : Str → Option Str)
    (useMultiRound : Bool) :
    ∀ (tr : List StreamEvent) (st : ReqState), st.signalAborted = true →
      (∀ e ∈ tr, (∃ c, e = StreamEvent.dataChunk c) ∨ e = StreamEvent.streamEnd) →
      runEvents parse useMultiRound tr st = st := by
  intro tr
  induction tr with
  | nil => intro st _ _; rfl
  | cons e tr ih =>
      intro st hab hall
      have hstep : stepEvent parse useMultiRound st e = st := by
        rcases hall e (List.mem_cons_self e tr) with ⟨c, rfl⟩ | rfl
        · simp [stepEvent, hab]
        · simp [stepEvent, hab]
      have : runEvents parse useMultiRound (e :: tr) st =
          runEvents parse useMultiRound tr (stepEvent parse useMultiRound st e) := rfl
      rw [this, hstep]
      exact ih st hab fun x hx => hall x (List.mem_cons_of_mem e hx)

/-- C7.  Once the abort signal of an in-flight self-hosted streaming request
is raised, the chunk handler and the end handler are no-ops: delivering any
further `data` or `end` events changes nothing — no further `streamChunk`
delta is posted, no assistant Turn is appended and no resolution with the
accumulated text occurs — and the operation settles with the distinguished
rejection `Request aborted` after the terminal `streamComplete` lifecycle
notifications posted by the abort listeners. -/
theorem claimC7_silent_after_abort (parse : Str → Option Str)
    (useMultiRound : Bool) (st : ReqState) (tr : List StreamEvent)
    (h1 : st.signalAborted = false) (h2 : st.settled = none)
    (h3 : ∀ e ∈ tr, (∃ c, e = StreamEvent.dataChunk c) ∨ e = StreamEvent.streamEnd) :
    runEvents parse useMultiRound (StreamEvent.abortSignal :: tr) st =
      runEvents parse useMultiRound [StreamEvent.abortSignal] st ∧
    (runEvents parse useMultiRound (StreamEvent.abortSignal :: tr) st).settled =
      some (Outcome.rejected (str "Request aborted")) ∧
    (runEvents parse useMultiRound (StreamEvent.abortSignal :: tr) st).msgs =
      st.msgs ++ [PostMsg.streamComplete, PostMsg.streamComplete] ∧
    (runEvents parse useMultiRound
        (StreamEvent.abortSignal :: tr) st).conversationHistory =
      st.conversationHistory := by
  have habort : stepEvent parse useMultiRound st StreamEvent.abortSignal =
      { st with
        signalAborted := true,
        msgs := st.msgs ++ [PostMsg.streamComplete, PostMsg.streamComplete],
        settled := some (Outcome.rejected (str "Request aborted")) } := by
    simp [stepEvent, h1, settleWith, h2]
  have hrun : runEvents parse useMultiRound (StreamEvent.abortSignal :: tr) st =
      runEvents parse useMultiRound tr
        (stepEvent parse useMultiRound st StreamEvent.abortSignal) := rfl
  have hpassive := runEvents_passive_after_abort parse useMultiRound tr
    (stepEvent parse useMultiRound st StreamEvent.abortSignal)
    (by rw [habort]) h3
  have hone : runEvents parse useMultiRound [StreamEvent.abortSignal] st =
      stepEvent parse useMultiRound st StreamEvent.abortSignal := rfl
  rw [hrun, hpassive, hone, habort]
  exact ⟨rfl, rfl, rfl, rfl⟩

/-- Witness for C7: a chunk and an end event delivered after the abort leave
the settled rejection in place. -/
theorem claimC7_silent_after_abort_witness :
    (runEvents demoParse true
        [StreamEvent.abortSignal, StreamEvent.dataChunk (str "x"),
         StreamEvent.streamEnd]
        ⟨false, ⟨[], []⟩, [], [], none⟩).settled =
      some (Outcome.rejected (str "Request aborted")) :=
  (claimC7_silent_after_abort demoParse true ⟨false, ⟨[], []⟩, [], [], none⟩
    [StreamEvent.dataChunk (str "x"), StreamEvent.streamEnd] rfl rfl
    (by
      intro e he
      simp only [List.mem_cons, List.mem_singleton] at he
      rcases he with rfl | rfl | he
      · exact Or.inl ⟨str "x", rfl⟩
      · exact Or.inr rfl
      · cases he)).2.1

/-! ### The cloud decoder rejects on a malformed fragment -/

theorem processCloudLines_good_run (cParse : Str → CloudParse) :
    ∀ {L R : List Str}, List.Forall₂ (GoodCloudLine cParse) L R →
      ∀ (rest : List Str) (st : CloudState),
        processCloudLines cParse (L ++ rest) st =
          processCloudLines cParse rest
            { fullResponse := st.fullResponse ++ R.flatten,
              msgs := st.msgs ++ R.map PostMsg.streamChunk,
              settled := st.settled } := by
  intro L R h
  induction h with
  | nil =>
      intro rest st
      simp
  | cons hg htl ih =>
      intro rest st
      obtain ⟨hpre, hok, hne⟩ := hg
      simp only [List.cons_append, processCloudLines, hpre, if_true, hok, if_neg hne]
      simp only [List.append_eq]
      rw [ih]
      simp [List.append_assoc]

/-- C6, as amended: a malformed `data: `-prefixed fragment (one whose payload
evaluation throws) is NOT swallowed — processing it rejects the promise of the
operation with that error (first settlement wins) and abandons the remaining
lines of the chunk, so content after it in the same chunk is dropped;
because the `data` listener stays attached, a later all-valid chunk still
posts its deltas, but the settlement stays the rejection. -/
theorem claimC6_malformed_fragment_rejects (cParse : Str → CloudParse)
    (L1 L2 R1 : List Str) (bad e : Str) (st : CloudState)
    (h1 : List.Forall₂ (GoodCloudLine cParse) L1 R1)
    (hb1 : (str "data: ").isPrefixOf bad = true)
    (hb2 : cParse (bad.drop 6) = CloudParse.throwsErr e)
    (hs : st.settled = none) :
    processCloudLines cParse (L1 ++ bad :: L2) st =
      { fullResponse := st.fullResponse ++ R1.flatten,
        msgs := st.msgs ++ R1.map PostMsg.streamChunk,
        settled := some (Outcome.rejected e) } ∧
    (∀ (L3 R3 : List Str) (st2 : CloudState),
      List.Forall₂ (GoodCloudLine cParse) L3 R3 →
        processCloudLines cParse L3 st2 =
          { fullResponse := st2.fullResponse ++ R3.flatten,
            msgs := st2.msgs ++ R3.map PostMsg.streamChunk,
            settled := st2.settled }) := by
  constructor
  · rw [processCloudLines_good_run cParse h1]
    simp only [processCloudLines, hb1, if_true, hb2]
    rw [hs]
    rfl
  · intro L3 R3 st2 h3
    have := processCloudLines_good_run cParse h3 [] st2
    rw [List.append_nil] at this
    rw [this]
    rfl

/-- Counterexample to C6 as stated: inside the chunk
`data: one\ndata: bad\ndata: two` the malformed middle fragment rejects the
whole operation (a non-transport failure terminates it) and the valid
fragment after it is never decoded — the decoder does not keep processing. -/
theorem claimC6_counterexample :
    (handleCloudChunk demoCloudParse (str "data: one\ndata: bad\ndata: two")
        ⟨[], [], none⟩).settled = some (Outcome.rejected (str "SyntaxError")) ∧
    (handleCloudChunk demoCloudParse (str "data: one\ndata: bad\ndata: two")
        ⟨[], [], none⟩).msgs = [PostMsg.streamChunk (str "A")] := by
  constructor
  · decide
  · decide

/-- Witness for the amended C6 at a concrete chunk. -/
theorem claimC6_malformed_fragment_rejects_witness :
    ((str "data: ").isPrefixOf (str "data: bad") = true ∧
      demoCloudParse ((str "data: bad").drop 6) =
        CloudParse.throwsErr (str "SyntaxError")) ∧
    processCloudLines demoCloudParse
        [str "data: one", str "data: bad", str "data: two"] ⟨[], [], none⟩ =
      { fullResponse := [str "A"].flatten,
        msgs := [PostMsg.streamChunk (str "A")],
        settled := some (Outcome.rejected (str "SyntaxError")) } := by
  refine ⟨⟨by decide, by decide⟩, ?_⟩
  have happ := claimC6_malformed_fragment_rejects demoCloudParse
    [str "data: one"] [str "data: two"] [str "A"] (str "data: bad")
    (str "SyntaxError") ⟨[], [], none⟩
    (List.Forall₂.cons ⟨by decide, by decide, by decide⟩ List.Forall₂.nil)
    (by decide) (by decide) rfl
  simpa using happ.1

/-! ### The dead error mapping of `sendToDeepSeek` -/

/-- C9 concerns a code bug.  `handleError` does map HTTP 401 to the
authentication message, HTTP 404 to the endpoint message and the
`Request aborted` abort to `Generation stopped.`, and the `catch` block of
`sendToDeepSeek` would resolve with exactly that mapped string — but because
`sendToDeepSeek` returns the inner request promise from inside `try` without
`await`, a rejection of that promise bypasses the `catch`: the call rejects
with the raw error for every transport failure, HTTP error and abort, the
mapping is never applied to them, no `error` event is posted from
`sendToDeepSeek`, and the stored controller is not cleared there. -/
theorem claimC9_error_mapping_unreachable :
    sendToDeepSeekSettles
        (SettleResult.rejects ⟨false, none, str "Request aborted"⟩) =
      SettleResult.rejects ⟨false, none, str "Request aborted"⟩ ∧
    tryReturnAwait (SettleResult.rejects ⟨false, none, str "Request aborted"⟩)
        sendCatchHandler =
      SettleResult.resolves (str "Generation stopped.") ∧
    handleError ⟨true, some 401, str "Request failed with status code 401"⟩ =
      str "Authentication failed. Check your API key." ∧
    handleError ⟨true, some 404, str "Request failed with status code 404"⟩ =
      str "Invalid API endpoint. Check your configuration." ∧
    handleError ⟨false, none, str "Request aborted"⟩ = str "Generation stopped." ∧
    ∀ e : JsError, sendToDeepSeekSettles (SettleResult.rejects e) =
      SettleResult.rejects e :=
  ⟨rfl, by decide, by decide, by decide, by decide, fun _ => rfl⟩
